import Mathlib

/-!
Verification development for the WinScrape-Studio scrape execution core.

Each definition is a shallow embedding of the corresponding Rust item,
keeping the source's names.  External library calls (the `regex`, `url`
and `rand` crates, `f64` parsing, HTML parsing/selecting) are abstracted
as explicit parameters, gathered in the `Prims` structure or passed as
function arguments; everything written in the repository itself is
embedded concretely.
-/

namespace WinScrape

/-- `serde_json::Value`.  The numeric payload is modelled as `Int`: the
numbers produced by the engine (`_response_time_ms`, `_status_code`,
`parse_number` results) are never inspected arithmetically by any code
under verification, only wrapped and compared for string-ness. -/
inductive Json where
  | null : Json
  | bool (b : Bool) : Json
  | num (n : Int) : Json
  | str (s : String) : Json
  | arr (xs : List Json) : Json
  | obj (kvs : List (String × Json)) : Json

/-- `Value::as_str` -/
def Json.asStr : Json → Option String
  | .str s => some s
  | _ => none

/-- `Value::is_null` -/
def Json.isNull : Json → Bool
  | .null => true
  | _ => false

/-- Whether the value is a JSON string (`as_str().is_some()`). -/
def Json.isStr : Json → Bool
  | .str _ => true
  | _ => false

/-- `HashMap::insert`: replace the binding if the key is present,
otherwise add it.  The engine's `item_data` map is modelled as an
association list with unique keys. -/
def insertKV (m : List (String × Json)) (k : String) (v : Json) :
    List (String × Json) :=
  match m with
  | [] => [(k, v)]
  | (k', v') :: rest =>
      if k' = k then (k, v) :: rest else (k', v') :: insertKV rest k v

/-- `HashMap::get` on the association-list model. -/
def getKV (m : List (String × Json)) (k : String) : Option Json :=
  match m with
  | [] => none
  | (k', v') :: rest => if k' = k then some v' else getKV rest k

/-- `needle` occurs as a contiguous run inside `hay`
(`str::contains` with a string pattern). -/
def listInfix (needle hay : List Char) : Bool :=
  needle.isPrefixOf hay ||
    match hay with
    | [] => false
    | _ :: t => listInfix needle t

/-- `str::contains(sub)` for a substring pattern. -/
def containsSub (s sub : String) : Bool :=
  listInfix sub.toList s.toList

/-- `str::contains(char)`. -/
def containsChar (s : String) (c : Char) : Bool :=
  s.toList.contains c

/-- `str::starts_with`. -/
def startsWithStr (s pre : String) : Bool :=
  pre.toList.isPrefixOf s.toList

/-- `str::trim`: strip leading and trailing whitespace (Rust trims
Unicode whitespace; `Char.isWhitespace` covers the ASCII subset, which
agrees on all inputs under verification). -/
def strTrim (s : String) : String :=
  String.mk
    (((s.toList.dropWhile Char.isWhitespace).reverse.dropWhile
      Char.isWhitespace).reverse)

/-- `str::to_lowercase` (Unicode in Rust; ASCII here, identical on the
inputs under verification). -/
def strToLower (s : String) : String :=
  String.mk (s.toList.map Char.toLower)

/-- `str::to_uppercase` (Unicode in Rust; ASCII here, identical on the
inputs under verification). -/
def strToUpper (s : String) : String :=
  String.mk (s.toList.map Char.toUpper)

/-- `str::replace`: replace all non-overlapping occurrences of `pat`
left to right.  The `fuel` argument makes the recursion structural; it
is called with `fuel = s.length`, which suffices because every step
consumes at least one character.  (Rust's behaviour for an empty
pattern — interleaving the replacement — is not modelled; the engine
only ever replaces the literal `"{page}"`.) -/
def replaceGo (pat rep : List Char) : Nat → List Char → List Char
  | _, [] => []
  | 0, s => s
  | fuel + 1, c :: rest =>
      if pat.isPrefixOf (c :: rest) && !pat.isEmpty then
        rep ++ replaceGo pat rep fuel ((c :: rest).drop pat.length)
      else c :: replaceGo pat rep fuel rest

/-- `str::replace` on strings. -/
def replaceStr (s pat rep : String) : String :=
  String.mk (replaceGo pat.toList rep.toList s.toList.length s.toList)

/-- Helper for `stripHtml`: drop characters up to and past the first
`'>'`, returning `none` when no `'>'` remains (so the regex
`<[^>]*>` has no match starting at this `'<'`).  The result carries
its length bound so the caller's recursion is seen to terminate. -/
def dropTag (cs : List Char) : Option {l : List Char // l.length ≤ cs.length} :=
  match cs with
  | [] => none
  | c :: rest =>
      if c = '>' then some ⟨rest, by simp⟩
      else
        match dropTag rest with
        | some ⟨l, h⟩ => some ⟨l, by simp; omega⟩
        | none => none

/-- `Regex::new(r"<[^>]*>").replace_all(text, "")` — the fixed
tag-stripping regex of `Transform::RemoveHtml`, evaluated directly:
each `'<'` that is followed by a later `'>'` is removed together with
everything up to that first `'>'`. -/
def stripHtmlList : List Char → List Char
  | [] => []
  | c :: rest =>
      if c = '<' then
        match dropTag rest with
        | some ⟨rest', _⟩ => stripHtmlList rest'
        | none => c :: stripHtmlList rest
      else c :: stripHtmlList rest
  termination_by cs => cs.length
  decreasing_by
    · rename_i h
      simp only [List.length_cons]
      omega
    · simp
    · simp

/-- String version of `stripHtmlList`. -/
def stripHtml (s : String) : String :=
  String.mk (stripHtmlList s.toList)

/-- External library primitives used by the engine and the validator.
Each field abstracts one call into a third-party crate; the repository
code never inspects these values beyond what the signatures show. -/
structure Prims where
  /-- `Regex::new(pattern)` followed by `is_match(text)`:
  `none` models a pattern that fails to compile. -/
  regexIsMatch : (pattern : String) → (text : String) → Option Bool
  /-- `Regex::new(pattern)` followed by `replace_all(text, replacement)`:
  `none` models a pattern that fails to compile (the `?` in
  `apply_single_transform` then propagates the error). -/
  regexReplace : (pattern : String) → (text : String) →
    (replacement : String) → Option String
  /-- `Regex::new(pattern).is_err()` negated, as used by the validator. -/
  regexOk : String → Bool
  /-- `text.parse::<f64>()` composed with
  `serde_json::Number::from_f64(..).unwrap_or(0)`:
  `none` models a parse failure, `some n` the resulting JSON number
  (payload abstracted as `Int`). -/
  parseNumber : String → Option Int
  /-- `Url::parse(text)` followed by `host_str()`: `none` models either
  a parse failure or an absent host (both fall back to the raw text in
  `Transform::ExtractDomain`). -/
  urlHost : String → Option String
  /-- `Url::parse(text)` followed by `scheme()`: `none` models a parse
  failure, `some s` the parsed URL's scheme (the only projection the
  validator inspects). -/
  urlScheme : String → Option String

/-- `dsl::SelectorType` -/
inductive SelectorType where
  | CSS : SelectorType
  | XPath : SelectorType
deriving DecidableEq

/-- `dsl::ExtractionMethod` -/
inductive ExtractionMethod where
  | Text : ExtractionMethod
  | Html : ExtractionMethod
  | Attribute (name : String) : ExtractionMethod
  | Href : ExtractionMethod
  | Src : ExtractionMethod
deriving DecidableEq

/-- `dsl::Transform` -/
inductive Transform where
  | Trim : Transform
  | Lowercase : Transform
  | Uppercase : Transform
  | Regex (pattern replacement : String) : Transform
  | ParseNumber : Transform
  | ParseDate (format : Option String) : Transform
  | RemoveHtml : Transform
  | ExtractDomain : Transform
deriving DecidableEq

/-- `dsl::FilterCondition` -/
inductive FilterCondition where
  | Contains (value : String) : FilterCondition
  | NotContains (value : String) : FilterCondition
  | Equals (value : String) : FilterCondition
  | NotEquals (value : String) : FilterCondition
  | Regex (pattern : String) : FilterCondition
  | LengthMin (min : Nat) : FilterCondition
  | LengthMax (max : Nat) : FilterCondition
  | NotEmpty : FilterCondition
deriving DecidableEq

/-- `dsl::Filter` -/
structure Filter where
  field : String
  condition : FilterCondition
deriving DecidableEq

/-- `dsl::Field` -/
structure Field where
  name : String
  selector : String
  selectorType : SelectorType
  extraction : ExtractionMethod
  required : Bool
  transform : Option (List Transform)
deriving DecidableEq

/-- `ScrapingEngine::apply_single_transform`.  A transform applied to a
non-string value passes the value through unchanged; on a string it
follows the source's match arm by arm (Rust's Unicode
`trim`/`to_lowercase`/`to_uppercase` are modelled by Lean's
`String.trim`/`toLower`/`toUpper`, which agree on ASCII text). -/
def apply_single_transform (p : Prims) (value : Json) (t : Transform) :
    Except String Json :=
  match value.asStr with
  | some text =>
      match t with
      | .Trim => .ok (.str (strTrim text))
      | .Lowercase => .ok (.str (strToLower text))
      | .Uppercase => .ok (.str (strToUpper text))
      | .Regex pattern replacement =>
          match p.regexReplace pattern text replacement with
          | some r => .ok (.str r)
          | none => .error "invalid regex"
      | .ParseNumber =>
          match p.parseNumber text with
          | some num => .ok (.num num)
          | none => .ok (.str text)
      | .ParseDate _ => .ok (.str text)
      | .RemoveHtml => .ok (.str (stripHtml text))
      | .ExtractDomain =>
          match p.urlHost text with
          | some host => .ok (.str host)
          | none => .ok (.str text)
  | none =>
      -- Non-string values pass through unchanged
      .ok value

/-- `ScrapingEngine::apply_transforms`: fold the transforms over the
value in declared order, propagating the first error. -/
def apply_transforms (p : Prims) (value : Json) :
    List Transform → Except String Json
  | [] => .ok value
  | t :: ts =>
      match apply_single_transform p value t with
      | .ok v' => apply_transforms p v' ts
      | .error e => .error e

/-- `ScrapingEngine::check_filter_condition`.  `str::len` is byte
length, hence `String.utf8ByteSize`. -/
def check_filter_condition (p : Prims) (value : Json)
    (condition : FilterCondition) : Bool :=
  match condition with
  | .Contains search =>
      match value.asStr with
      | some text => containsSub text search
      | none => false
  | .NotContains search =>
      match value.asStr with
      | some text => !containsSub text search
      | none => true
  | .Equals expected =>
      match value.asStr with
      | some text => text = expected
      | none => false
  | .NotEquals expected =>
      match value.asStr with
      | some text => text ≠ expected
      | none => true
  | .Regex pattern =>
      match value.asStr with
      | some text => (p.regexIsMatch pattern text).getD false
      | none => false
  | .LengthMin min =>
      match value.asStr with
      | some text => min ≤ text.utf8ByteSize
      | none => false
  | .LengthMax max =>
      match value.asStr with
      | some text => text.utf8ByteSize ≤ max
      | none => false
  | .NotEmpty =>
      match value.asStr with
      | some text => !(strTrim text).isEmpty
      | none => !value.isNull

/-- The `for filter in filters` loop inside
`ScrapingEngine::passes_filters`, with early `return false` on a
failing filter or a missing field. -/
def passes_filters_list (p : Prims) (item : List (String × Json)) :
    List Filter → Bool
  | [] => true
  | f :: fs =>
      match getKV item f.field with
      | some fieldValue =>
          if check_filter_condition p fieldValue f.condition then
            passes_filters_list p item fs
          else false
      | none =>
          -- Field doesn't exist, filter fails
          false

/-- `ScrapingEngine::passes_filters`. -/
def passes_filters (p : Prims) (item : List (String × Json)) :
    Option (List Filter) → Bool
  | none => true
  | some filters => passes_filters_list p item filters

/-- The `for field in &plan.rules.fields` loop inside
`ScrapingEngine::extract_items`.  `fieldVal` abstracts
`extract_field_value` on the current element (CSS selection is a
library capability).  Note that in the source the `continue` statements
under `Ok(None)`/`Err(_)` for a required field target this very loop,
so they advance to the next field exactly as the non-required branches
do; the element keeps being processed either way. -/
def extract_fields_loop (fieldVal : Field → Except String (Option Json)) :
    List Field → List (String × Json) → List (String × Json)
  | [], itemData => itemData
  | field :: fields, itemData =>
      match fieldVal field with
      | .ok (some value) =>
          extract_fields_loop fieldVal fields (insertKV itemData field.name value)
      | .ok none =>
          if field.required then
            -- debug!("Required field '{}' not found, skipping item"); continue
            extract_fields_loop fieldVal fields itemData
          else
            extract_fields_loop fieldVal fields itemData
      | .error _ =>
          if field.required then
            -- warn!("Failed to extract field ..."); continue
            extract_fields_loop fieldVal fields itemData
          else
            extract_fields_loop fieldVal fields itemData

/-- The five provenance inserts in `ScrapingEngine::extract_items`,
performed after the field loop.  `chrono::Utc::now().to_rfc3339()` is
abstracted as the `scrapedAt` argument. -/
def add_metadata (itemData : List (String × Json))
    (sourceUrl scrapedAt : String) (responseTime statusCode : Nat) :
    List (String × Json) :=
  insertKV (insertKV (insertKV (insertKV (insertKV itemData
    "_source_url" (.str sourceUrl))
    "_scraped_at" (.str scrapedAt))
    "_method" (.str "http"))
    "_response_time_ms" (.num responseTime))
    "_status_code" (.num statusCode)

/-- One iteration of the element loop in
`ScrapingEngine::extract_items`: build the field map, attach metadata,
apply the filters; `some` is the item pushed, `none` a filtered-out
element. -/
def extract_one_item (p : Prims) {Elem : Type}
    (fieldVal : Elem → Field → Except String (Option Json))
    (element : Elem) (fields : List Field) (filters : Option (List Filter))
    (sourceUrl scrapedAt : String) (responseTime statusCode : Nat) :
    Option (List (String × Json)) :=
  let itemData := extract_fields_loop (fieldVal element) fields []
  let itemData := add_metadata itemData sourceUrl scrapedAt responseTime statusCode
  if passes_filters p itemData filters then some itemData else none

/-- `ScrapingEngine::extract_items`: the elements matched by the item
selector (document parsing and selection abstracted as the `elements`
list, in document order) are processed in order; items that pass the
filters are pushed as JSON objects. -/
def extract_items (p : Prims) {Elem : Type}
    (fieldVal : Elem → Field → Except String (Option Json))
    (fields : List Field) (filters : Option (List Filter))
    (sourceUrl scrapedAt : String) (responseTime statusCode : Nat) :
    List Elem → List Json
  | [] => []
  | e :: es =>
      match extract_one_item p fieldVal e fields filters
          sourceUrl scrapedAt responseTime statusCode with
      | some itemData =>
          Json.obj itemData ::
            extract_items p fieldVal fields filters
              sourceUrl scrapedAt responseTime statusCode es
      | none =>
          extract_items p fieldVal fields filters
            sourceUrl scrapedAt responseTime statusCode es

/-- `dsl::PaginationMethod`.  The source's `end` field is renamed
`stop` (`end` is a Lean keyword). -/
inductive PaginationMethod where
  | Link (next_selector : String) : PaginationMethod
  | Button (button_selector : String) : PaginationMethod
  | Scroll (scroll_pause_ms : Nat) : PaginationMethod
  | UrlPattern (pattern : String) (start stop : Nat) : PaginationMethod
deriving DecidableEq

/-- `dsl::Pagination` -/
structure Pagination where
  method : PaginationMethod
  selector : Option String
  max_pages : Option Nat
  wait_time_ms : Option Nat
deriving DecidableEq

/-- `dsl::Rules` -/
structure Rules where
  pagination : Option Pagination
  item_selector : String
  fields : List Field
  filters : Option (List Filter)
deriving DecidableEq

/-- `dsl::DelayDistribution` -/
inductive DelayDistribution where
  | Uniform : DelayDistribution
  | Exponential : DelayDistribution
  | Normal : DelayDistribution
deriving DecidableEq

/-- `dsl::DelayConfig` -/
structure DelayConfig where
  min_ms : Nat
  max_ms : Nat
  distribution : DelayDistribution
deriving DecidableEq

/-- `dsl::ProxyRotation` -/
inductive ProxyRotation where
  | RoundRobin : ProxyRotation
  | Random : ProxyRotation
deriving DecidableEq

/-- `dsl::ProxyConfig` -/
structure ProxyConfig where
  enabled : Bool
  proxies : List String
  rotation : ProxyRotation
deriving DecidableEq

/-- `dsl::AntiBlocking`.  The `headers` `HashMap` is modelled as an
association list. -/
structure AntiBlocking where
  randomized_delays : DelayConfig
  user_agent_rotation : Bool
  respect_robots_txt : Bool
  proxy : Option ProxyConfig
  headers : Option (List (String × String))
deriving DecidableEq

/-- `dsl::OutputFormat` -/
inductive OutputFormat where
  | CSV : OutputFormat
  | JSON : OutputFormat
  | XLSX : OutputFormat
  | Parquet : OutputFormat
deriving DecidableEq

/-- `dsl::SortOrder` -/
inductive SortOrder where
  | Ascending : SortOrder
  | Descending : SortOrder
deriving DecidableEq

/-- `dsl::Output` -/
structure Output where
  format : List OutputFormat
  limit : Option Nat
  dedupe_keys : Option (List String)
  sort_by : Option String
  sort_order : Option SortOrder
deriving DecidableEq

/-- `dsl::Target` -/
structure Target where
  domain : String
  start_urls : List String
  url_patterns : Option (List String)
  max_pages : Option Nat
deriving DecidableEq

/-- `dsl::ScrapePlan`.  The free-form `metadata` map is modelled as an
association list of JSON values. -/
structure ScrapePlan where
  version : String
  target : Target
  rules : Rules
  anti_blocking : AntiBlocking
  output : Output
  metadata : Option (List (String × Json))

/-- `ScrapePlan::generate_urls_from_pattern`, parameterized over the
`url` crate's `Url::parse` (`parse`; `α` is the parsed-URL type).
A `{page}` pattern is instantiated at pages `1 ..= max_pages`
(default 10); instantiations that fail to parse are silently dropped
(`if let Ok(url) = Url::parse(..)`). -/
def generate_urls_from_pattern {α : Type} (parse : String → Option α)
    (maxPages : Option Nat) (pattern : String) : List α :=
  if containsSub pattern "{page}" then
    ((List.range' 1 (maxPages.getD 10)).map
      (fun page => replaceStr pattern "{page}" (toString page))).filterMap parse
  else
    match parse pattern with
    | some url => [url]
    | none => []

/-- The `for url_str in &self.target.start_urls` loop of
`ScrapePlan::get_all_urls`: `Url::parse(url_str)?` fails the whole
enumeration on the first unparseable start URL. -/
def parse_start_urls {α : Type} (parse : String → Option α) :
    List String → Except String (List α)
  | [] => .ok []
  | u :: us =>
      match parse u with
      | some url =>
          match parse_start_urls parse us with
          | .ok urls => .ok (url :: urls)
          | .error e => .error e
      | none => .error u

/-- The pattern loop of `ScrapePlan::get_all_urls`. -/
def pattern_urls {α : Type} (parse : String → Option α)
    (maxPages : Option Nat) : List String → List α
  | [] => []
  | pat :: pats =>
      generate_urls_from_pattern parse maxPages pat ++
        pattern_urls parse maxPages pats

/-- `ScrapePlan::get_all_urls`. -/
def get_all_urls {α : Type} (parse : String → Option α)
    (plan : ScrapePlan) : Except String (List α) :=
  match parse_start_urls parse plan.target.start_urls with
  | .error e => .error e
  | .ok urls =>
      match plan.target.url_patterns with
      | some patterns =>
          .ok (urls ++ pattern_urls parse plan.target.max_pages patterns)
      | none => .ok urls

/-- `UserAgentRotator::default_user_agents`. -/
def default_user_agents : List String := [
  "Mozilla/5.0 (Windows NT 10.0; Win64; x64) AppleWebKit/537.36 (KHTML, like Gecko) Chrome/120.0.0.0 Safari/537.36",
  "Mozilla/5.0 (Windows NT 10.0; Win64; x64) AppleWebKit/537.36 (KHTML, like Gecko) Chrome/119.0.0.0 Safari/537.36",
  "Mozilla/5.0 (Windows NT 10.0; Win64; x64) AppleWebKit/537.36 (KHTML, like Gecko) Chrome/118.0.0.0 Safari/537.36",
  "Mozilla/5.0 (Windows NT 10.0; Win64; x64; rv:121.0) Gecko/20100101 Firefox/121.0",
  "Mozilla/5.0 (Windows NT 10.0; Win64; x64; rv:120.0) Gecko/20100101 Firefox/120.0",
  "Mozilla/5.0 (Windows NT 10.0; Win64; x64; rv:119.0) Gecko/20100101 Firefox/119.0",
  "Mozilla/5.0 (Windows NT 10.0; Win64; x64) AppleWebKit/537.36 (KHTML, like Gecko) Edge/120.0.0.0 Safari/537.36",
  "Mozilla/5.0 (Windows NT 10.0; Win64; x64) AppleWebKit/537.36 (KHTML, like Gecko) Edge/119.0.0.0 Safari/537.36",
  "Mozilla/5.0 (Macintosh; Intel Mac OS X 10_15_7) AppleWebKit/537.36 (KHTML, like Gecko) Chrome/120.0.0.0 Safari/537.36",
  "Mozilla/5.0 (Macintosh; Intel Mac OS X 10_15_7) AppleWebKit/537.36 (KHTML, like Gecko) Chrome/119.0.0.0 Safari/537.36",
  "Mozilla/5.0 (Macintosh; Intel Mac OS X 10_15_7) AppleWebKit/605.1.15 (KHTML, like Gecko) Version/17.1 Safari/605.1.15",
  "Mozilla/5.0 (Macintosh; Intel Mac OS X 10_15_7) AppleWebKit/605.1.15 (KHTML, like Gecko) Version/17.0 Safari/605.1.15",
  "Mozilla/5.0 (Macintosh; Intel Mac OS X 10.15; rv:121.0) Gecko/20100101 Firefox/121.0",
  "Mozilla/5.0 (Macintosh; Intel Mac OS X 10.15; rv:120.0) Gecko/20100101 Firefox/120.0",
  "Mozilla/5.0 (X11; Linux x86_64) AppleWebKit/537.36 (KHTML, like Gecko) Chrome/120.0.0.0 Safari/537.36",
  "Mozilla/5.0 (X11; Linux x86_64) AppleWebKit/537.36 (KHTML, like Gecko) Chrome/119.0.0.0 Safari/537.36",
  "Mozilla/5.0 (X11; Linux x86_64; rv:121.0) Gecko/20100101 Firefox/121.0",
  "Mozilla/5.0 (X11; Linux x86_64; rv:120.0) Gecko/20100101 Firefox/120.0",
  "Mozilla/5.0 (Linux; Android 10; SM-G973F) AppleWebKit/537.36 (KHTML, like Gecko) Chrome/120.0.0.0 Mobile Safari/537.36",
  "Mozilla/5.0 (Linux; Android 11; SM-G991B) AppleWebKit/537.36 (KHTML, like Gecko) Chrome/119.0.0.0 Mobile Safari/537.36",
  "Mozilla/5.0 (iPhone; CPU iPhone OS 17_1 like Mac OS X) AppleWebKit/605.1.15 (KHTML, like Gecko) Version/17.1 Mobile/15E148 Safari/604.1",
  "Mozilla/5.0 (iPad; CPU OS 17_1 like Mac OS X) AppleWebKit/605.1.15 (KHTML, like Gecko) Version/17.1 Mobile/15E148 Safari/604.1"]

/-- `scraper::user_agent::UserAgentRotator` (the `Arc` wrapper is
immaterial). -/
structure UserAgentRotator where
  user_agents : List String

/-- `UserAgentRotator::new`: an empty configured pool falls back to the
built-in default pool. -/
def UserAgentRotator.new (user_agents : List String) : UserAgentRotator :=
  if user_agents.isEmpty then ⟨default_user_agents⟩ else ⟨user_agents⟩

/-- `UserAgentRotator::get_random_user_agent`:
`self.user_agents.choose(&mut rng).unwrap()`.  `SliceRandom::choose`
picks a uniformly random index, modelled by the arbitrary draw `i`
reduced mod the pool size; it returns `None` — and the `unwrap` panics —
exactly when the pool is empty, which is the `none` branch here. -/
def UserAgentRotator.get_random_user_agent (r : UserAgentRotator)
    (i : Nat) : Option String :=
  if h : r.user_agents.length = 0 then none
  else some (r.user_agents.get ⟨i % r.user_agents.length, Nat.mod_lt i (Nat.pos_of_ne_zero h)⟩)

/-- `robots::RobotRule`. -/
structure RobotRule where
  user_agent : String
  disallow : List String
  allow : List String
  crawl_delay : Option Nat
deriving DecidableEq

/-- `RobotsChecker::matches_user_agent`: the wildcard pattern `*`
matches every agent; any other pattern matches by case-insensitive
substring (Rust's Unicode `to_lowercase` modelled by `String.toLower`,
identical on ASCII). -/
def matches_user_agent (pattern user_agent : String) : Bool :=
  if pattern = "*" then true
  else containsSub (strToLower user_agent) (strToLower pattern)

/-- The wildcard-to-regex path matching of
`RobotsChecker::matches_wildcard_pattern`, evaluated directly on the
pattern: `*` matches any substring, `?` any single character, every
other character itself (the source escapes `.` before translating);
the regex is anchored only at the start (`^`), so a match against any
prefix of the path suffices.  This models the source for patterns whose
translated regex compiles and contains no further metacharacters. -/
def glob_match : List Char → List Char → Bool
  | [], _ => true
  | '*' :: ps, s =>
      glob_match ps s ||
        match s with
        | [] => false
        | _ :: s' => glob_match ('*' :: ps) s'
  | '?' :: ps, s =>
      match s with
      | [] => false
      | _ :: s' => glob_match ps s'
  | c :: ps, s =>
      match s with
      | [] => false
      | d :: s' => c = d && glob_match ps s'
  termination_by ps s => (ps.length, s.length)

/-- `RobotsChecker::matches_path`. -/
def matches_path (path pattern : String) : Bool :=
  if pattern = "/" then true
  else if pattern = "" then false
  else if containsChar pattern '*' then glob_match pattern.toList path.toList
  else startsWithStr path pattern

/-- The rule-scanning loop of `RobotsChecker::check_url_allowed`: for
each applicable rule in order, an `allow` match returns `true` before
any `disallow` of the same rule is consulted; a `disallow` match
returns `false`; with no match anywhere the default is `true`. -/
def scan_rules (path : String) : List RobotRule → Bool
  | [] => true
  | r :: rs =>
      if r.allow.any (fun pat => matches_path path pat) then true
      else if r.disallow.any (fun pat => matches_path path pat) then false
      else scan_rules path rs

/-- `RobotsChecker::check_url_allowed` (the `url.path()` projection is
abstracted: `path` is the URL's path).  First collect the rules whose
agent pattern matches, then — only if none did — the rules whose agent
pattern is literally `*`; with no applicable rules the URL is allowed;
otherwise scan. -/
def check_url_allowed (user_agent path : String)
    (rules : List RobotRule) : Bool :=
  let applicable := rules.filter (fun r => matches_user_agent r.user_agent user_agent)
  let applicable :=
    if applicable.isEmpty then rules.filter (fun r => r.user_agent = "*")
    else applicable
  if applicable.isEmpty then true
  else scan_rules path applicable

/-- Modelled from the claim's words (for comparison with
`check_url_allowed`): applicable blocks are those matching the query
agent by case-insensitive substring, falling back to the wildcard `*`
blocks only when no such specific block matches. -/
def claim_check_url_allowed (user_agent path : String)
    (rules : List RobotRule) : Bool :=
  let specific := rules.filter
    (fun r => containsSub (strToLower user_agent) (strToLower r.user_agent))
  let applicable :=
    if specific.isEmpty then rules.filter (fun r => r.user_agent = "*")
    else specific
  if applicable.isEmpty then true
  else scan_rules path applicable

/-- `core::job_manager::JobPriority` (`Low = 0 < Normal = 1 < High = 2 <
Critical = 3`, the derived `Ord`). -/
inductive JobPriority where
  | Low : JobPriority
  | Normal : JobPriority
  | High : JobPriority
  | Critical : JobPriority
deriving DecidableEq

/-- The enum discriminants backing the derived `Ord` on `JobPriority`. -/
def JobPriority.toNat : JobPriority → Nat
  | .Low => 0
  | .Normal => 1
  | .High => 2
  | .Critical => 3

/-- `core::job_manager::QueuedJob` — the `queued_at` timestamp is a
logical clock (`Nat`). -/
structure QueuedJob where
  job_id : String
  dsl : ScrapePlan
  priority : JobPriority
  queued_at : Nat

/-- `slice::binary_search_by` from the Rust standard library, as used by
`JobManager::queue_job`: classic bisection; `.ok mid` is `Ok(mid)` at
the first probed element comparing `Equal`, `.error left` is
`Err(left)` when the window closes.  The `fuel` argument makes the
recursion structural; the window shrinks by at least one per step, so
any `fuel ≥ right - left` computes the search exactly (and with
`fuel = 0` the window is already closed).  The `xs.get? mid = none` arm
is unreachable while `right ≤ xs.length`. -/
def binary_search_aux {α : Type} (xs : List α) (f : α → Ordering) :
    Nat → Nat → Nat → Except Nat Nat
  | 0, left, _right => .error left
  | fuel + 1, left, right =>
      if left < right then
        match xs.get? (left + (right - left) / 2) with
        | none => .error left
        | some x =>
            match f x with
            | .lt => binary_search_aux xs f fuel (left + (right - left) / 2 + 1) right
            | .gt => binary_search_aux xs f fuel left (left + (right - left) / 2)
            | .eq => .ok (left + (right - left) / 2)
      else .error left

/-- `slice::binary_search_by` over the whole slice. -/
def binary_search_by {α : Type} (xs : List α) (f : α → Ordering) :
    Except Nat Nat :=
  binary_search_aux xs f xs.length 0 xs.length

/-- `Vec::insert(pos, x)`.  (With `pos > len` the real `Vec::insert`
panics; that case is unreachable here because the binary-search
position is always `≤ len`.) -/
def insertAt {α : Type} : Nat → α → List α → List α
  | 0, x, l => x :: l
  | _ + 1, x, [] => [x]
  | n + 1, x, y :: l => y :: insertAt n x l

/-- The comparator closure in `JobManager::queue_job`:
`job.priority.cmp(&queued_job.priority).reverse()`. -/
def queue_cmp (j : QueuedJob) (job : QueuedJob) : Ordering :=
  (compare job.priority.toNat j.priority.toNat).swap

/-- `JobManager::queue_job` restricted to its effect on the in-memory
queue: insert at the position returned by the binary search
(`unwrap_or_else(|pos| pos)` collapses `Ok` and `Err` to the same
index). -/
def queue_job (queue : List QueuedJob) (j : QueuedJob) : List QueuedJob :=
  let insert_pos :=
    match binary_search_by queue (queue_cmp j) with
    | .ok pos => pos
    | .error pos => pos
  insertAt insert_pos j queue

/-- `JobManager::try_start_next_job` restricted to its effect on the
queue: `job_queue.remove(0)` when the queue is non-empty (and capacity
exists — capacity accounting does not touch the queue order). -/
def try_start_next : List QueuedJob → List QueuedJob
  | [] => []
  | _ :: rest => rest

/-- A queue operation: `enqueue` is a submit arriving at capacity,
`promote` a `try_start_next_job` promotion. -/
inductive QueueOp where
  | enqueue (j : QueuedJob) : QueueOp
  | promote : QueueOp

/-- Run a sequence of queue operations from a given queue state. -/
def apply_ops : List QueuedJob → List QueueOp → List QueuedJob
  | q, [] => q
  | q, .enqueue j :: ops => apply_ops (queue_job q j) ops
  | q, .promote :: ops => apply_ops (try_start_next q) ops

/-- The queue is ordered by priority, highest first. -/
def sorted_by_priority (q : List QueuedJob) : Prop :=
  List.Pairwise (fun a b => b.priority.toNat ≤ a.priority.toNat) q

/-- `ScrapePlan::default()` from the source's `Default` impl. -/
def ScrapePlan.default : ScrapePlan where
  version := "1.0"
  target := {
    domain := "example.com"
    start_urls := ["https://example.com"]
    url_patterns := none
    max_pages := some 10 }
  rules := {
    pagination := none
    item_selector := "article"
    fields := [
      { name := "title"
        selector := "h1, h2, .title"
        selectorType := .CSS
        extraction := .Text
        required := true
        transform := some [.Trim] },
      { name := "url"
        selector := "a"
        selectorType := .CSS
        extraction := .Href
        required := false
        transform := none }]
    filters := none }
  anti_blocking := {
    randomized_delays := { min_ms := 1000, max_ms := 3000, distribution := .Uniform }
    user_agent_rotation := true
    respect_robots_txt := true
    proxy := none
    headers := none }
  output := {
    format := [.CSV]
    limit := none
    dedupe_keys := some ["url"]
    sort_by := none
    sort_order := none }
  metadata := none

/-- Character class of the validator's `css_selector_regex`
(`^[a-zA-Z0-9\s\.\#\[\]\:\(\)\-_,>~\+\*=\^$|"']+$`). -/
def css_selector_char (c : Char) : Bool :=
  c.isAlphanum || c.isWhitespace || c = '.' || c = '#' || c = '[' ||
  c = ']' || c = ':' || c = '(' || c = ')' || c = '-' || c = '_' ||
  c = ',' || c = '>' || c = '~' || c = '+' || c = '*' || c = '=' ||
  c = '^' || c = '$' || c = '|' || c = '"' || c = '\''

/-- `css_selector_regex.is_match`: the anchored `[...]+` demands a
non-empty string over the class. -/
def css_selector_regex_match (s : String) : Bool :=
  !s.isEmpty && s.toList.all css_selector_char

/-- Character class of the validator's `xpath_regex`
(`^[a-zA-Z0-9\s/\.\@\[\]\(\)\-_=\^$|"':]+$`). -/
def xpath_char (c : Char) : Bool :=
  c.isAlphanum || c.isWhitespace || c = '/' || c = '.' || c = '@' ||
  c = '[' || c = ']' || c = '(' || c = ')' || c = '-' || c = '_' ||
  c = '=' || c = '^' || c = '$' || c = '|' || c = '"' || c = '\'' || c = ':'

/-- `xpath_regex.is_match`. -/
def xpath_regex_match (s : String) : Bool :=
  !s.isEmpty && s.toList.all xpath_char

/-- Character class `[a-zA-Z0-9\-\.]` of the validator's `url_regex`. -/
def host_char (c : Char) : Bool :=
  c.isAlphanum || c = '-' || c = '.'

/-- The `[a-zA-Z]{2,}(/.*)?$` suffix of `url_regex`: a maximal run of
at least two letters followed by nothing or by a `/`.  (Stopping the
letter run early would leave a letter, which matches neither the end
nor `/`, so the maximal run decides membership.) -/
def url_tail_match (cs : List Char) : Bool :=
  let run := (cs.takeWhile (fun c => c.isAlpha)).length
  decide (2 ≤ run) &&
    (let rest := cs.drop run
     rest.isEmpty || rest.head? = some '/')

/-- Scan for the `\.` separating `[a-zA-Z0-9\-\.]+` from the
`[a-zA-Z]{2,}` suffix of `url_regex`; each position may extend the
host part or serve as the separator. -/
def url_host_go : List Char → Bool
  | [] => false
  | c :: rest =>
      (c = '.' && url_tail_match rest) || (host_char c && url_host_go rest)

/-- `[a-zA-Z0-9\-\.]+\.[a-zA-Z]{2,}(/.*)?$`: non-empty host part, then
separator and suffix. -/
def url_host_match : List Char → Bool
  | [] => false
  | c :: rest => host_char c && url_host_go rest

/-- `url_regex.is_match`
(`^https?://[a-zA-Z0-9\-\.]+\.[a-zA-Z]{2,}(/.*)?$`). -/
def url_regex_match (s : String) : Bool :=
  let cs := s.toList
  if cs.take 7 = "http://".toList then url_host_match (cs.drop 7)
  else if cs.take 8 = "https://".toList then url_host_match (cs.drop 8)
  else false

/-- `DSLValidator::validate_version`. -/
def validate_version (version : String) : Except String Unit :=
  if version = "" then .error "Version cannot be empty"
  else if !(version.toList.all (fun c => c.isAlphanum || c = '.' || c = '-')) then
    .error "Invalid version format"
  else .ok ()

/-- The `for url_str in &target.start_urls` loop of
`DSLValidator::validate_target` (the host/domain comparison in the
source only emits a warning and is omitted). -/
def validate_start_urls (p : Prims) : List String → Except String Unit
  | [] => .ok ()
  | u :: us =>
      match p.urlScheme u with
      | some scheme =>
          if !startsWithStr scheme "http" then
            .error "URL must use HTTP or HTTPS scheme"
          else validate_start_urls p us
      | none => .error "Invalid URL"

/-- `DSLValidator::validate_url_pattern`. -/
def validate_url_pattern (pattern : String) : Except String Unit :=
  if pattern = "" then .error "URL pattern cannot be empty"
  else if !containsSub pattern "http" && !containsSub pattern "https" then
    .error "URL pattern must contain http or https"
  else if containsSub pattern "file://" || containsSub pattern "ftp://" then
    .error "Unsafe URL scheme in pattern"
  else .ok ()

/-- The pattern loop of `DSLValidator::validate_target`. -/
def validate_url_patterns : List String → Except String Unit
  | [] => .ok ()
  | pat :: pats => do
      validate_url_pattern pat
      validate_url_patterns pats

/-- `DSLValidator::validate_target` (warnings omitted; errors kept). -/
def validate_target (p : Prims) (target : Target) : Except String Unit :=
  if target.domain = "" then .error "Domain cannot be empty"
  else if target.start_urls.isEmpty then
    .error "At least one start URL is required"
  else if !url_regex_match ("https://" ++ target.domain) then
    .error "Invalid domain format"
  else do
    validate_start_urls p target.start_urls
    match target.url_patterns with
    | some patterns => validate_url_patterns patterns
    | none => pure ()
    match target.max_pages with
    | some 0 => .error "Max pages must be greater than 0"
    | _ => pure ()

/-- `DSLValidator::validate_selector` (advisory warnings omitted). -/
def validate_selector (selector : String) (selectorType : SelectorType) :
    Except String Unit :=
  if selector = "" then .error "Selector cannot be empty"
  else
    match selectorType with
    | .CSS =>
        if !css_selector_regex_match selector then
          .error "Invalid CSS selector"
        else .ok ()
    | .XPath =>
        if !xpath_regex_match selector then
          .error "Invalid XPath selector"
        else .ok ()

/-- `DSLValidator::validate_extraction_method`. -/
def validate_extraction_method (extraction : ExtractionMethod)
    (_selectorType : SelectorType) : Except String Unit :=
  match extraction with
  | .Attribute name =>
      if name = "" then .error "Attribute name cannot be empty"
      else if !(name.toList.all (fun c => c.isAlphanum || c = '-' || c = '_')) then
        .error "Invalid attribute name"
      else .ok ()
  | _ => .ok ()

/-- `DSLValidator::validate_transform`. -/
def validate_transform (p : Prims) (t : Transform) : Except String Unit :=
  match t with
  | .Regex pattern _ =>
      if pattern = "" then .error "Regex pattern cannot be empty"
      else if !p.regexOk pattern then .error "Invalid regex pattern"
      else .ok ()
  | .ParseDate (some format) =>
      if format = "" then .error "Date format cannot be empty" else .ok ()
  | _ => .ok ()

/-- The transform loop of `DSLValidator::validate_field`. -/
def validate_transforms (p : Prims) : List Transform → Except String Unit
  | [] => .ok ()
  | t :: ts => do
      validate_transform p t
      validate_transforms p ts

/-- `DSLValidator::validate_field`. -/
def validate_field (p : Prims) (field : Field) : Except String Unit :=
  if field.name = "" then .error "Field name cannot be empty"
  else if field.selector = "" then .error "Field selector cannot be empty"
  else do
    validate_selector field.selector field.selectorType
    validate_extraction_method field.extraction field.selectorType
    match field.transform with
    | some transforms => validate_transforms p transforms
    | none => pure ()

/-- The field loop of `DSLValidator::validate_rules`, threading the
`field_names` duplicate-detection set (validation of the field happens
before the duplicate check, as in the source). -/
def validate_fields (p : Prims) : List Field → List String → Except String Unit
  | [], _ => .ok ()
  | f :: fs, seen => do
      validate_field p f
      if seen.contains f.name then .error "Duplicate field name"
      else validate_fields p fs (f.name :: seen)

/-- `DSLValidator::validate_pagination` (warnings omitted). -/
def validate_pagination (pagination : Pagination) : Except String Unit := do
  match pagination.method with
  | .Link next_selector =>
      if next_selector = "" then
        .error "Next selector cannot be empty for link pagination"
      else validate_selector next_selector .CSS
  | .Button button_selector =>
      if button_selector = "" then
        .error "Button selector cannot be empty for button pagination"
      else validate_selector button_selector .CSS
  | .Scroll scroll_pause_ms =>
      if scroll_pause_ms = 0 then
        .error "Scroll pause time must be greater than 0"
      else pure ()
  | .UrlPattern pattern start stop =>
      if pattern = "" then .error "URL pattern cannot be empty"
      else if start ≥ stop then
        .error "Start value must be less than end value"
      else pure ()
  match pagination.selector with
  | some selector => validate_selector selector .CSS
  | none => pure ()
  match pagination.max_pages with
  | some 0 => .error "Max pages must be greater than 0"
  | _ => pure ()

/-- `DSLValidator::validate_filter`. -/
def validate_filter (p : Prims) (filter : Filter)
    (field_names : List String) : Except String Unit :=
  if !field_names.contains filter.field then
    .error "Filter references unknown field"
  else
    match filter.condition with
    | .Contains value =>
        if value = "" then .error "Contains filter value cannot be empty"
        else .ok ()
    | .NotContains value =>
        if value = "" then .error "NotContains filter value cannot be empty"
        else .ok ()
    | .Equals value =>
        if value = "" then .error "Equals filter value cannot be empty"
        else .ok ()
    | .NotEquals value =>
        if value = "" then .error "NotEquals filter value cannot be empty"
        else .ok ()
    | .Regex pattern =>
        if pattern = "" then .error "Regex pattern cannot be empty"
        else if !p.regexOk pattern then .error "Invalid regex pattern"
        else .ok ()
    | .LengthMin min =>
        if min = 0 then .error "Length minimum must be greater than 0"
        else .ok ()
    | .LengthMax max =>
        if max = 0 then .error "Length maximum must be greater than 0"
        else .ok ()
    | .NotEmpty => .ok ()

/-- The filter loop of `DSLValidator::validate_rules`. -/
def validate_filters (p : Prims) (field_names : List String) :
    List Filter → Except String Unit
  | [] => .ok ()
  | f :: fs => do
      validate_filter p f field_names
      validate_filters p field_names fs

/-- `DSLValidator::validate_rules`.  By the time the filter loop runs
the `field_names` set holds every declared field name, hence the
`rules.fields.map Field.name` argument. -/
def validate_rules (p : Prims) (rules : Rules) : Except String Unit :=
  if rules.item_selector = "" then .error "Item selector cannot be empty"
  else if rules.fields.isEmpty then
    .error "At least one field must be defined"
  else do
    validate_selector rules.item_selector .CSS
    validate_fields p rules.fields []
    match rules.pagination with
    | some pagination => validate_pagination pagination
    | none => pure ()
    match rules.filters with
    | some filters => validate_filters p (rules.fields.map Field.name) filters
    | none => pure ()

/-- The proxy-URL loop of `DSLValidator::validate_anti_blocking`. -/
def validate_proxy_urls : List String → Except String Unit
  | [] => .ok ()
  | u :: us =>
      if !startsWithStr u "http://" && !startsWithStr u "https://" then
        .error "Invalid proxy URL format"
      else validate_proxy_urls us

/-- The header loop of `DSLValidator::validate_anti_blocking`
(the sensitive-header check only warns). -/
def validate_headers : List (String × String) → Except String Unit
  | [] => .ok ()
  | (name, value) :: hs =>
      if name = "" then .error "Header name cannot be empty"
      else if value = "" then .error "Header value cannot be empty"
      else validate_headers hs

/-- `DSLValidator::validate_anti_blocking` (warnings omitted). -/
def validate_anti_blocking (ab : AntiBlocking) : Except String Unit :=
  if ab.randomized_delays.min_ms > ab.randomized_delays.max_ms then
    .error "Min delay cannot be greater than max delay"
  else do
    match ab.proxy with
    | some proxy =>
        if proxy.enabled && proxy.proxies.isEmpty then
          .error "Proxy is enabled but no proxies are configured"
        else validate_proxy_urls proxy.proxies
    | none => pure ()
    match ab.headers with
    | some headers => validate_headers headers
    | none => pure ()

/-- `DSLValidator::validate_output` (warnings omitted; the per-format
match arms in the source are all `Ok`). -/
def validate_output (output : Output) : Except String Unit :=
  if output.format.isEmpty then
    .error "At least one output format must be specified"
  else do
    match output.limit with
    | some 0 => .error "Output limit must be greater than 0"
    | _ => pure ()
    match output.dedupe_keys with
    | some [] => .error "Dedupe keys cannot be empty"
    | _ => pure ()
    match output.sort_by with
    | some "" => .error "Sort field cannot be empty"
    | _ => pure ()

/-- The filter-reference loop of
`DSLValidator::validate_cross_references`. -/
def check_filter_refs (field_names : List String) :
    List Filter → Except String Unit
  | [] => .ok ()
  | f :: fs =>
      if !field_names.contains f.field then
        .error "Filter references unknown field"
      else check_filter_refs field_names fs

/-- The dedupe-key loop of `DSLValidator::validate_cross_references`. -/
def check_dedupe_keys (field_names : List String) :
    List String → Except String Unit
  | [] => .ok ()
  | k :: ks =>
      if !field_names.contains k then
        .error "Dedupe key does not exist in field definitions"
      else check_dedupe_keys field_names ks

/-- `DSLValidator::validate_cross_references`: the three reference
checks in source order, each aborting the sequence on its first
error. -/
def validate_cross_references (plan : ScrapePlan) : Except String Unit :=
  (match plan.rules.filters with
   | some filters =>
       check_filter_refs (plan.rules.fields.map Field.name) filters
   | none => .ok ()) >>= fun _ =>
  (match plan.output.sort_by with
   | some sort_by =>
       if !(plan.rules.fields.map Field.name).contains sort_by then
         .error "Sort field does not exist in field definitions"
       else .ok ()
   | none => .ok ()) >>= fun _ =>
  (match plan.output.dedupe_keys with
   | some dedupe_keys =>
       check_dedupe_keys (plan.rules.fields.map Field.name) dedupe_keys
   | none => .ok ())

/-- `DSLValidator::validate`: the full pipeline, failing fast on the
first structural error.  A pure function — no network activity. -/
def validate (p : Prims) (plan : ScrapePlan) : Except String Unit := do
  validate_version plan.version
  validate_target p plan.target
  validate_rules p plan.rules
  validate_anti_blocking plan.anti_blocking
  validate_output plan.output
  validate_cross_references plan

/-- A conservative instantiation of the external primitives, used to
evaluate the embedded functions at concrete inputs: regexes never
compile, numbers and URLs never parse.  (Every theorem below that
quantifies over `Prims` holds for this and any other instance.) -/
def trivialPrims : Prims where
  regexIsMatch := fun _ _ => none
  regexReplace := fun _ _ _ => none
  regexOk := fun _ => false
  parseNumber := fun _ => none
  urlHost := fun _ => none
  urlScheme := fun s => if startsWithStr s "https://" then some "https" else none

/-- The strings a `{page}` pattern is instantiated to, as the claim
describes them: pages `1, 2, …, max_pages` (default 10) in increasing
order; a pattern without `{page}` stands for itself. -/
def claim_page_instances (plan : ScrapePlan) (pattern : String) :
    List String :=
  if containsSub pattern "{page}" then
    (List.range' 1 (plan.target.max_pages.getD 10)).map
      (fun page => replaceStr pattern "{page}" (toString page))
  else [pattern]

/-- A single required field whose selector matches nothing, used as the
failing input for the required-field claim. -/
def c1Field : Field where
  name := "title"
  selector := ".title"
  selectorType := .CSS
  extraction := .Text
  required := true
  transform := none

/-- All-or-nothing traversal of a parser over a string list: `some`
exactly when every element parses.  Used to phrase "every URL in this
list is parseable" in the enumeration claim. -/
def parseAll {α : Type} (parse : String → Option α) :
    List String → Option (List α)
  | [] => some []
  | u :: us =>
      match parse u, parseAll parse us with
      | some a, some as' => some (a :: as')
      | _, _ => none

/-- A concrete stand-in for `Url::parse` (URLs modelled as their own
strings; anything not starting with `http` fails to parse), used to
instantiate parser-parameterized theorems at concrete inputs. -/
def demo_parse : String → Option String :=
  fun s => if startsWithStr s "http" then some s else none

/-- A concrete plan with one start URL and one `{page}` pattern capped
at two pages. -/
def demo_plan : ScrapePlan :=
  { ScrapePlan.default with
    target := {
      domain := "example.com"
      start_urls := ["https://example.com"]
      url_patterns := some ["https://example.com/p/{page}"]
      max_pages := some 2 } }

/-- First job submitted at capacity: Normal priority, logical time 0. -/
def jobA : QueuedJob := ⟨"A", ScrapePlan.default, .Normal, 0⟩

/-- Second job submitted at capacity: equal (Normal) priority, logical
time 1. -/
def jobB : QueuedJob := ⟨"B", ScrapePlan.default, .Normal, 1⟩

/-! ## Association-list lemmas -/

theorem getKV_insertKV_self (m : List (String × Json)) (k : String) (v : Json) :
    getKV (insertKV m k v) k = some v := by
  induction m with
  | nil => simp [insertKV, getKV]
  | cons kv rest ih =>
      obtain ⟨k', v'⟩ := kv
      by_cases h : k' = k
      · simp [insertKV, getKV, h]
      · simp [insertKV, getKV, h, ih]

theorem getKV_insertKV_ne (m : List (String × Json)) (k k' : String)
    (v : Json) (h : k' ≠ k) :
    getKV (insertKV m k' v) k = getKV m k := by
  induction m with
  | nil => simp [insertKV, getKV, h]
  | cons kv rest ih =>
      obtain ⟨k'', v''⟩ := kv
      simp only [insertKV]
      by_cases h2 : k'' = k'
      · subst h2
        rw [if_pos rfl]
        simp only [getKV]
        rw [if_neg h, if_neg h]
      · rw [if_neg h2]
        simp only [getKV]
        by_cases h3 : k'' = k
        · rw [if_pos h3, if_pos h3]
        · rw [if_neg h3, if_neg h3, ih]

/-! ## C6 — transforms fold in declared order; non-text pass-through -/

/-- C6: applying a field's transform list folds the transforms over the
value in declared order (a successful prefix feeds its result to the
rest, an error in the prefix is the final result), `[trim, uppercase]`
maps `" abc "` to `"ABC"`, and every transform applied to a non-string
value returns the value unchanged (hence so does any transform list). -/
theorem transforms_fold_in_order (p : Prims) :
    (∀ (v v' : Json) (ts₁ ts₂ : List Transform),
      apply_transforms p v ts₁ = .ok v' →
      apply_transforms p v (ts₁ ++ ts₂) = apply_transforms p v' ts₂) ∧
    (∀ (v : Json) (e : String) (ts₁ ts₂ : List Transform),
      apply_transforms p v ts₁ = .error e →
      apply_transforms p v (ts₁ ++ ts₂) = .error e) ∧
    apply_transforms p (.str " abc ") [.Trim, .Uppercase] = .ok (.str "ABC") ∧
    (∀ (v : Json) (t : Transform), v.isStr = false →
      apply_single_transform p v t = .ok v) ∧
    (∀ (v : Json) (ts : List Transform), v.isStr = false →
      apply_transforms p v ts = .ok v) := by
  have hsingle : ∀ (v : Json) (t : Transform), v.isStr = false →
      apply_single_transform p v t = .ok v := by
    intro v t h
    cases v <;> simp_all [apply_single_transform, Json.asStr, Json.isStr]
  have hall : ∀ (ts : List Transform) (v : Json), v.isStr = false →
      apply_transforms p v ts = .ok v := by
    intro ts
    induction ts with
    | nil => intro v _; rfl
    | cons t ts ih =>
        intro v h
        simp only [apply_transforms, hsingle v t h]
        exact ih v h
  refine ⟨?_, ?_, by rfl, hsingle, fun v ts h => hall ts v h⟩
  · intro v v' ts₁ ts₂ h
    induction ts₁ generalizing v with
    | nil =>
        simp only [apply_transforms] at h
        cases h
        rfl
    | cons t ts ih =>
        simp only [List.cons_append, apply_transforms] at h ⊢
        cases hs : apply_single_transform p v t with
        | ok w => rw [hs] at h; exact ih w h
        | error e => rw [hs] at h; exact Except.noConfusion h
  · intro v e ts₁ ts₂ h
    induction ts₁ generalizing v with
    | nil => simp [apply_transforms] at h
    | cons t ts ih =>
        simp only [List.cons_append, apply_transforms] at h ⊢
        cases hs : apply_single_transform p v t with
        | ok w => rw [hs] at h; exact ih w h
        | error e' => rw [hs] at h; exact h

/-- Witness for C6 at concrete inputs. -/
theorem transforms_fold_in_order_witness :
    (Json.num 7).isStr = false ∧
    apply_single_transform trivialPrims (Json.num 7) .Trim = .ok (Json.num 7) ∧
    apply_transforms trivialPrims (.str " abc ") [.Trim] = .ok (.str "abc") ∧
    apply_transforms trivialPrims (.str " abc ") ([.Trim] ++ [.Uppercase]) =
      apply_transforms trivialPrims (.str "abc") [.Uppercase] :=
  ⟨rfl, (transforms_fold_in_order trivialPrims).2.2.2.1 (Json.num 7) .Trim rfl, rfl,
    (transforms_fold_in_order trivialPrims).1 (.str " abc ") (.str "abc")
      [.Trim] [.Uppercase] rfl⟩

/-! ## C9 — filter conditions on non-string values -/

/-- C9: on a non-string field value, `contains`, `equals`, `regex`,
`length_min` and `length_max` are `false`, `not_contains` and
`not_equals` are `true`, and `not_empty` holds exactly when the value
is not null. -/
theorem filter_conditions_on_non_string (p : Prims) (v : Json)
    (x pat : String) (n m : Nat) (h : v.isStr = false) :
    check_filter_condition p v (.Contains x) = false ∧
    check_filter_condition p v (.NotContains x) = true ∧
    check_filter_condition p v (.Equals x) = false ∧
    check_filter_condition p v (.NotEquals x) = true ∧
    check_filter_condition p v (.Regex pat) = false ∧
    check_filter_condition p v (.LengthMin n) = false ∧
    check_filter_condition p v (.LengthMax m) = false ∧
    check_filter_condition p v .NotEmpty = !v.isNull := by
  cases v <;>
    simp_all [check_filter_condition, Json.asStr, Json.isStr, Json.isNull]

/-- Witness for C9 at a numeric value. -/
theorem filter_conditions_on_non_string_witness :
    (Json.num 5).isStr = false ∧
    check_filter_condition trivialPrims (Json.num 5) (.Contains "a") = false ∧
    check_filter_condition trivialPrims (Json.num 5) .NotEmpty = true :=
  ⟨rfl,
    (filter_conditions_on_non_string trivialPrims (Json.num 5) "a" "b" 1 2 rfl).1,
    (filter_conditions_on_non_string trivialPrims (Json.num 5) "a" "b" 1 2 rfl).2.2.2.2.2.2.2⟩

/-! ## C2 — filter list AND semantics -/

/-- C2: with no filter list every item is kept; with a filter list the
item is kept iff every filter's field is present and its condition
holds (AND semantics); a filter naming an absent field excludes the
item. -/
theorem passes_filters_and_semantics (p : Prims)
    (item : List (String × Json)) (fs : List Filter) :
    passes_filters p item none = true ∧
    (passes_filters p item (some fs) = true ↔
      ∀ f ∈ fs, ∃ v, getKV item f.field = some v ∧
        check_filter_condition p v f.condition = true) ∧
    (∀ f ∈ fs, getKV item f.field = none →
      passes_filters p item (some fs) = false) := by
  have key : ∀ gs : List Filter, passes_filters_list p item gs = true ↔
      ∀ f ∈ gs, ∃ v, getKV item f.field = some v ∧
        check_filter_condition p v f.condition = true := by
    intro gs
    induction gs with
    | nil => simp [passes_filters_list]
    | cons f fs ih =>
        simp only [passes_filters_list]
        cases hg : getKV item f.field with
        | none =>
            simp only [List.mem_cons]
            constructor
            · intro h; cases h
            · intro h
              obtain ⟨v, hv, _⟩ := h f (Or.inl rfl)
              rw [hg] at hv; cases hv
        | some v =>
            by_cases hc : check_filter_condition p v f.condition
            · simp only [hc, if_true, ih, List.mem_cons]
              constructor
              · intro h g hg2
                cases hg2 with
                | inl h2 => subst h2; exact ⟨v, hg, hc⟩
                | inr h2 => exact h g h2
              · intro h g hg2; exact h g (Or.inr hg2)
            · simp only [hc, if_false, List.mem_cons]
              constructor
              · intro h; cases h
              · intro h
                obtain ⟨w, hw, hcw⟩ := h f (Or.inl rfl)
                rw [hg] at hw
                cases hw
                exact absurd hcw hc
    -- close the `cases hg` by matching on the rewritten goal
  refine ⟨rfl, key fs, ?_⟩
  intro f hf hnone
  cases hpf : passes_filters p item (some fs) with
  | false => rfl
  | true =>
      have := (key fs).mp hpf f hf
      obtain ⟨v, hv, _⟩ := this
      rw [hnone] at hv
      cases hv

/-- Witness for C2: a filter on a missing field excludes the item. -/
theorem passes_filters_and_semantics_witness :
    (⟨"b", .NotEmpty⟩ : Filter) ∈ [(⟨"b", .NotEmpty⟩ : Filter)] ∧
    getKV [("a", Json.str "x")] "b" = none ∧
    passes_filters trivialPrims [("a", Json.str "x")]
      (some [⟨"b", .NotEmpty⟩]) = false :=
  ⟨List.mem_singleton.mpr rfl, rfl,
    (passes_filters_and_semantics trivialPrims [("a", Json.str "x")]
      [⟨"b", .NotEmpty⟩]).2.2 ⟨"b", .NotEmpty⟩ (List.mem_singleton.mpr rfl) rfl⟩

/-! ## C8 — user-agent pool is never empty -/

/-- C8: for every configured pool, including the empty one, the
rotator's pool is non-empty, and random selection always returns an
element of the pool (so the `unwrap` panic branch is unreachable). -/
theorem user_agent_pool_nonempty (cfg : List String) (i : Nat) :
    (UserAgentRotator.new cfg).user_agents ≠ [] ∧
    ∃ ua, (UserAgentRotator.new cfg).get_random_user_agent i = some ua ∧
      ua ∈ (UserAgentRotator.new cfg).user_agents := by
  have hne : (UserAgentRotator.new cfg).user_agents ≠ [] := by
    cases cfg with
    | nil => simp [UserAgentRotator.new, default_user_agents]
    | cons a l => simp [UserAgentRotator.new]
  refine ⟨hne, ?_⟩
  unfold UserAgentRotator.get_random_user_agent
  have hlen : (UserAgentRotator.new cfg).user_agents.length ≠ 0 := by
    simpa [List.length_eq_zero] using hne
  rw [dif_neg hlen]
  exact ⟨_, rfl, List.get_mem _ _ _⟩

/-! ## C10 — provenance metadata shares the item's key namespace -/

/-- C10: every item emitted by HTTP extraction carries the five
provenance keys in the same map as the field values, and that very map
(metadata included) is the one the filters were evaluated on — so a
filter may reference the metadata keys. -/
theorem metadata_keys_present {Elem : Type} (p : Prims)
    (fieldVal : Elem → Field → Except String (Option Json)) (e : Elem)
    (fields : List Field) (filters : Option (List Filter))
    (su sa : String) (rt sc : Nat) (item : List (String × Json))
    (h : extract_one_item p fieldVal e fields filters su sa rt sc = some item) :
    getKV item "_source_url" = some (.str su) ∧
    getKV item "_scraped_at" = some (.str sa) ∧
    getKV item "_method" = some (.str "http") ∧
    getKV item "_response_time_ms" = some (.num rt) ∧
    getKV item "_status_code" = some (.num sc) ∧
    passes_filters p item filters = true := by
  unfold extract_one_item at h
  by_cases hp : passes_filters p
      (add_metadata (extract_fields_loop (fieldVal e) fields []) su sa rt sc)
      filters = true
  · rw [if_pos hp] at h
    injection h with h2
    subst h2
    refine ⟨?_, ?_, ?_, ?_, ?_, hp⟩ <;>
      unfold add_metadata <;>
      simp [getKV_insertKV_self, getKV_insertKV_ne, String.ne_of_data_ne]
  · rw [if_neg hp] at h
    exact Option.noConfusion h

/-- Witness for C10 at a concrete element with no fields and no
filters. -/
theorem metadata_keys_present_witness :
    extract_one_item trivialPrims (fun (_ : Unit) _ => .ok none) () [] none
      "https://example.com/" "2026-01-01T00:00:00Z" 5 200 =
      some (add_metadata [] "https://example.com/" "2026-01-01T00:00:00Z" 5 200) ∧
    getKV (add_metadata [] "https://example.com/" "2026-01-01T00:00:00Z" 5 200)
      "_method" = some (.str "http") :=
  ⟨rfl,
    (metadata_keys_present trivialPrims (fun (_ : Unit) _ => .ok none) () [] none
      "https://example.com/" "2026-01-01T00:00:00Z" 5 200 _ rfl).2.2.1⟩

/-! ## C1 — a missing required field does not in fact skip the item -/

/-- C1 (failing input): one element matched by the item selector, one
required field whose evaluation yields no value (`Ok(None)`), no
filters.  The claim says the element contributes no item; the code
emits the item anyway (carrying only the five provenance keys), because
the `continue` under `Ok(None)`/`Err(_)` targets the field loop, not
the element loop.  The engine's own debug message — "Required field
not found, skipping item" — describes the intended, not the actual,
behaviour. -/
theorem required_field_missing_item_still_emitted :
    extract_items trivialPrims (fun (_ : Unit) _ => .ok none) [c1Field] none
        "https://example.com/" "2026-01-01T00:00:00Z" 5 200 [()] =
      [Json.obj (add_metadata [] "https://example.com/"
        "2026-01-01T00:00:00Z" 5 200)] := rfl

/-! ## C7 — URL enumeration -/

theorem parse_start_urls_of_parseAll {α : Type} (parse : String → Option α)
    (us : List String) (ps : List α) (h : parseAll parse us = some ps) :
    parse_start_urls parse us = .ok ps := by
  induction us generalizing ps with
  | nil =>
      simp only [parseAll, Option.some.injEq] at h
      subst h
      rfl
  | cons u us ih =>
      simp only [parseAll] at h
      cases hu : parse u with
      | none => rw [hu] at h; exact Option.noConfusion h
      | some a =>
          rw [hu] at h
          cases hrest : parseAll parse us with
          | none => rw [hrest] at h; exact Option.noConfusion h
          | some as' =>
              rw [hrest] at h
              simp only [Option.some.injEq] at h
              subst h
              simp only [parse_start_urls, hu, ih as' hrest]

theorem parse_start_urls_error {α : Type} (parse : String → Option α)
    (us : List String) (u : String) (hmem : u ∈ us) (hu : parse u = none) :
    ∃ e, parse_start_urls parse us = .error e := by
  induction us with
  | nil => cases hmem
  | cons a us ih =>
      cases hmem with
      | head =>
          exact ⟨u, by simp only [parse_start_urls, hu]⟩
      | tail _ hmem2 =>
          cases ha : parse a with
          | none => exact ⟨a, by simp only [parse_start_urls, ha]⟩
          | some b =>
              obtain ⟨e, he⟩ := ih hmem2
              exact ⟨e, by simp only [parse_start_urls, ha, he]⟩

theorem filterMap_of_parseAll {α : Type} (parse : String → Option α)
    (xs : List String) (g : List α) (h : parseAll parse xs = some g) :
    xs.filterMap parse = g := by
  induction xs generalizing g with
  | nil =>
      simp only [parseAll, Option.some.injEq] at h
      subst h
      rfl
  | cons x xs ih =>
      simp only [parseAll] at h
      cases hx : parse x with
      | none => rw [hx] at h; exact Option.noConfusion h
      | some a =>
          rw [hx] at h
          cases hrest : parseAll parse xs with
          | none => rw [hrest] at h; exact Option.noConfusion h
          | some as' =>
              rw [hrest] at h
              simp only [Option.some.injEq] at h
              subst h
              simp [List.filterMap_cons, hx, ih as' hrest]

theorem generate_of_parseAll {α : Type} (parse : String → Option α)
    (plan : ScrapePlan) (pat : String) (g : List α)
    (h : parseAll parse (claim_page_instances plan pat) = some g) :
    generate_urls_from_pattern parse plan.target.max_pages pat = g := by
  unfold claim_page_instances at h
  unfold generate_urls_from_pattern
  by_cases hc : containsSub pat "{page}"
  · rw [if_pos hc] at h ⊢
    exact filterMap_of_parseAll parse _ g h
  · rw [if_neg hc] at h ⊢
    simp only [parseAll] at h
    cases hp : parse pat with
    | none => rw [hp] at h; exact Option.noConfusion h
    | some a =>
        rw [hp] at h
        simp only [Option.some.injEq] at h
        subst h
        rfl

theorem pattern_urls_of_forall {α : Type} (parse : String → Option α)
    (plan : ScrapePlan) (pats : List String) (gss : List (List α))
    (h : List.Forall₂
      (fun pat g => parseAll parse (claim_page_instances plan pat) = some g)
      pats gss) :
    pattern_urls parse plan.target.max_pages pats = gss.flatten := by
  induction h with
  | nil => rfl
  | cons hpg _ ih =>
      simp only [pattern_urls, List.flatten_cons, ih,
        generate_of_parseAll parse plan _ _ hpg]

/-- C7: URL enumeration returns exactly the parsed start URLs in
declared order followed by the pattern-generated URLs — each pattern
contributing its `{page}` instantiations at pages `1, 2, …, max_pages`
(10 when unset) in increasing order, a pattern without `{page}`
contributing itself — provided the generated URLs parse; and any
unparseable start URL fails the whole enumeration. -/
theorem get_all_urls_enumeration {α : Type} (parse : String → Option α)
    (plan : ScrapePlan) :
    (∀ (ps : List α) (gss : List (List α)),
      parseAll parse plan.target.start_urls = some ps →
      List.Forall₂
        (fun pat g => parseAll parse (claim_page_instances plan pat) = some g)
        (plan.target.url_patterns.getD []) gss →
      get_all_urls parse plan = .ok (ps ++ gss.flatten)) ∧
    (∀ u ∈ plan.target.start_urls, parse u = none →
      ∃ e, get_all_urls parse plan = .error e) := by
  constructor
  · intro ps gss hs hg
    unfold get_all_urls
    rw [parse_start_urls_of_parseAll parse _ ps hs]
    cases hup : plan.target.url_patterns with
    | none =>
        rw [hup] at hg
        simp only [Option.getD] at hg
        cases hg
        simp
    | some pats =>
        rw [hup] at hg
        simp only [Option.getD] at hg
        simp only [pattern_urls_of_forall parse plan pats gss hg]
  · intro u hmem hu
    obtain ⟨e, he⟩ := parse_start_urls_error parse _ u hmem hu
    exact ⟨e, by unfold get_all_urls; rw [he]⟩

/-- Witness for C7 on `demo_plan` with `demo_parse`: one start URL,
one pattern expanded at pages 1 and 2. -/
theorem get_all_urls_enumeration_witness :
    parseAll demo_parse demo_plan.target.start_urls =
      some ["https://example.com"] ∧
    get_all_urls demo_parse demo_plan =
      .ok (["https://example.com"] ++
        [["https://example.com/p/1", "https://example.com/p/2"]].flatten) :=
  ⟨rfl,
    (get_all_urls_enumeration demo_parse demo_plan).1
      ["https://example.com"]
      [["https://example.com/p/1", "https://example.com/p/2"]]
      rfl
      (List.Forall₂.cons rfl List.Forall₂.nil)⟩

/-! ## C4 — job queue ordering -/

theorem queue_cmp_cases (j x : QueuedJob) :
    (queue_cmp j x = .lt ↔ j.priority.toNat < x.priority.toNat) ∧
    (queue_cmp j x = .eq ↔ j.priority.toNat = x.priority.toNat) ∧
    (queue_cmp j x = .gt ↔ x.priority.toNat < j.priority.toNat) := by
  unfold queue_cmp
  rcases Nat.lt_trichotomy x.priority.toNat j.priority.toNat with h | h | h
  · rw [Nat.compare_eq_lt.mpr h]
    refine ⟨?_, ?_, ?_⟩ <;> simp [Ordering.swap] <;> omega
  · rw [Nat.compare_eq_eq.mpr h]
    refine ⟨?_, ?_, ?_⟩ <;> simp [Ordering.swap] <;> omega
  · rw [Nat.compare_eq_gt.mpr h]
    refine ⟨?_, ?_, ?_⟩ <;> simp [Ordering.swap] <;> omega

theorem sorted_get_le (q : List QueuedJob) (hq : sorted_by_priority q)
    (i j : Nat) (x y : QueuedJob) (hij : i ≤ j)
    (hx : q.get? i = some x) (hy : q.get? j = some y) :
    y.priority.toNat ≤ x.priority.toNat := by
  obtain ⟨hi, hgi⟩ := List.get?_eq_some.mp hx
  obtain ⟨hj, hgj⟩ := List.get?_eq_some.mp hy
  rcases Nat.lt_or_ge i j with hlt | hge
  · have := List.pairwise_iff_get.mp hq ⟨i, hi⟩ ⟨j, hj⟩ hlt
    rw [hgi, hgj] at this
    exact this
  · have heq : i = j := Nat.le_antisymm hij hge
    subst heq
    rw [hx] at hy
    injection hy with h2
    subst h2
    exact Nat.le_refl _

/-- Correctness of the bisection as used by `queue_job` on a
priority-sorted queue: whichever way the search ends, the collapsed
position splits the queue into a prefix of priorities `≥` the new
job's and a suffix of priorities `≤` it. -/
theorem queue_bsearch_spec (j : QueuedJob) (q : List QueuedJob)
    (hq : sorted_by_priority q) :
    ∀ (fuel left right : Nat), right - left ≤ fuel → left ≤ right →
    right ≤ q.length →
    (∀ i x, q.get? i = some x → i < left → queue_cmp j x = .lt) →
    (∀ i x, q.get? i = some x → right ≤ i → queue_cmp j x = .gt) →
    ∀ pos, (binary_search_aux q (queue_cmp j) fuel left right = .ok pos ∨
            binary_search_aux q (queue_cmp j) fuel left right = .error pos) →
    pos ≤ q.length ∧
    (∀ i x, q.get? i = some x → i < pos → j.priority.toNat ≤ x.priority.toNat) ∧
    (∀ i x, q.get? i = some x → pos ≤ i → x.priority.toNat ≤ j.priority.toNat) := by
  intro fuel
  induction fuel with
  | zero =>
      intro left right hgap hle hlen hinv1 hinv2 pos hpos
      have hleft : left = right := by omega
      have hpe : pos = left := by
        rcases hpos with hpos | hpos
        · exact Except.noConfusion hpos
        · injection hpos with h2; exact h2.symm
      subst hpe
      refine ⟨by omega, ?_, ?_⟩
      · intro i x hx hi
        have := hinv1 i x hx hi
        exact Nat.le_of_lt ((queue_cmp_cases j x).1.mp this)
      · intro i x hx hi
        have := hinv2 i x hx (by omega)
        exact Nat.le_of_lt ((queue_cmp_cases j x).2.2.mp this)
  | succ fuel ih =>
      intro left right hgap hle hlen hinv1 hinv2 pos hpos
      by_cases hlr : left < right
      · have hmid2 : (right - left) / 2 < right - left :=
          Nat.div_lt_self (by omega) (by omega)
        have hmidr : left + (right - left) / 2 < right := by omega
        have hmidlen : left + (right - left) / 2 < q.length := by omega
        have hget : q.get? (left + (right - left) / 2) =
            some (q.get ⟨left + (right - left) / 2, hmidlen⟩) :=
          List.get?_eq_get hmidlen
        simp only [binary_search_aux, if_pos hlr, hget] at hpos
        cases hfx : queue_cmp j (q.get ⟨left + (right - left) / 2, hmidlen⟩) with
        | lt =>
            rw [hfx] at hpos
            refine ih (left + (right - left) / 2 + 1) right (by omega) (by omega)
              hlen ?_ hinv2 pos hpos
            intro i x hx hi
            rcases Nat.lt_or_ge i left with hil | hil
            · exact hinv1 i x hx hil
            · have hkey := sorted_get_le q hq i (left + (right - left) / 2) x
                (q.get ⟨left + (right - left) / 2, hmidlen⟩) (by omega) hx hget
              have hmidlt := (queue_cmp_cases j _).1.mp hfx
              exact (queue_cmp_cases j x).1.mpr (by omega)
        | gt =>
            rw [hfx] at hpos
            refine ih left (left + (right - left) / 2) (by omega) (by omega)
              (by omega) hinv1 ?_ pos hpos
            intro i x hx hi
            have := (List.get?_eq_some.mp hx).1
            have hkey := sorted_get_le q hq (left + (right - left) / 2) i
              (q.get ⟨left + (right - left) / 2, hmidlen⟩) x (by omega) hget hx
            have hmidgt := (queue_cmp_cases j _).2.2.mp hfx
            exact (queue_cmp_cases j x).2.2.mpr (by omega)
        | eq =>
            rw [hfx] at hpos
            have hpe : pos = left + (right - left) / 2 := by
              rcases hpos with hpos | hpos
              · injection hpos with h2; exact h2.symm
              · exact Except.noConfusion hpos
            subst hpe
            have hmideq := (queue_cmp_cases j _).2.1.mp hfx
            refine ⟨by omega, ?_, ?_⟩
            · intro i x hx hi
              have hkey := sorted_get_le q hq i (left + (right - left) / 2) x
                (q.get ⟨left + (right - left) / 2, hmidlen⟩) (by omega) hx hget
              omega
            · intro i x hx hi
              have hkey := sorted_get_le q hq (left + (right - left) / 2) i
                (q.get ⟨left + (right - left) / 2, hmidlen⟩) x (by omega) hget hx
              omega
      · have hleft : left = right := by omega
        simp only [binary_search_aux, if_neg hlr] at hpos
        have hpe : pos = left := by
          rcases hpos with hpos | hpos
          · exact Except.noConfusion hpos
          · injection hpos with h2; exact h2.symm
        subst hpe
        refine ⟨by omega, ?_, ?_⟩
        · intro i x hx hi
          exact Nat.le_of_lt ((queue_cmp_cases j x).1.mp (hinv1 i x hx hi))
        · intro i x hx hi
          exact Nat.le_of_lt ((queue_cmp_cases j x).2.2.mp (hinv2 i x hx (by omega)))

theorem mem_insertAt {α : Type} (z x : α) :
    ∀ (n : Nat) (l : List α), z ∈ insertAt n x l → z = x ∨ z ∈ l := by
  intro n
  induction n with
  | zero =>
      intro l hz
      rcases List.mem_cons.mp hz with h | h
      · exact Or.inl h
      · exact Or.inr h
  | succ n ih =>
      intro l hz
      cases l with
      | nil =>
          rcases List.mem_singleton.mp hz with h
          exact Or.inl h
      | cons y l' =>
          rcases List.mem_cons.mp hz with h | h
          · exact Or.inr (by rw [h]; exact List.mem_cons_self y l')
          · rcases ih l' h with h2 | h2
            · exact Or.inl h2
            · exact Or.inr (List.mem_cons_of_mem y h2)

theorem insertAt_sorted (jb : QueuedJob) :
    ∀ (pos : Nat) (q : List QueuedJob), sorted_by_priority q →
    (∀ i x, q.get? i = some x → i < pos → jb.priority.toNat ≤ x.priority.toNat) →
    (∀ i x, q.get? i = some x → pos ≤ i → x.priority.toNat ≤ jb.priority.toNat) →
    sorted_by_priority (insertAt pos jb q) := by
  intro pos
  induction pos with
  | zero =>
      intro q hq h1 h2
      show List.Pairwise _ (jb :: q)
      rw [List.pairwise_cons]
      refine ⟨?_, hq⟩
      intro b hb
      obtain ⟨i, hgi⟩ := List.mem_iff_get.mp hb
      exact h2 i b (by rw [List.get?_eq_get i.isLt, hgi]) (Nat.zero_le _)
  | succ pos ih =>
      intro q hq h1 h2
      cases q with
      | nil =>
          show List.Pairwise _ [jb]
          exact List.pairwise_singleton _ jb
      | cons y q' =>
          show List.Pairwise _ (y :: insertAt pos jb q')
          rw [List.pairwise_cons]
          constructor
          · intro z hz
            rcases mem_insertAt z jb pos q' hz with rfl | hz'
            · exact h1 0 y rfl (Nat.succ_pos pos)
            · exact (List.pairwise_cons.mp hq).1 z hz'
          · refine ih q' (List.pairwise_cons.mp hq).2 ?_ ?_
            · intro i x hx hi
              exact h1 (i + 1) x (by simpa using hx) (by omega)
            · intro i x hx hi
              exact h2 (i + 1) x (by simpa using hx) (by omega)

theorem queue_job_sorted (q : List QueuedJob) (jb : QueuedJob)
    (hq : sorted_by_priority q) : sorted_by_priority (queue_job q jb) := by
  unfold queue_job binary_search_by
  have hspec := queue_bsearch_spec jb q hq q.length 0 q.length
    (by omega) (Nat.zero_le _) (Nat.le_refl _)
    (fun i x _ hi => absurd hi (Nat.not_lt_zero i))
    (fun i x hx hi => by
      have := (List.get?_eq_some.mp hx).1
      omega)
  cases hres : binary_search_aux q (queue_cmp jb) q.length 0 q.length with
  | ok p =>
      obtain ⟨_, h1, h2⟩ := hspec p (Or.inl hres)
      exact insertAt_sorted jb p q hq h1 h2
  | error p =>
      obtain ⟨_, h1, h2⟩ := hspec p (Or.inr hres)
      exact insertAt_sorted jb p q hq h1 h2

theorem try_start_next_sorted (q : List QueuedJob)
    (hq : sorted_by_priority q) : sorted_by_priority (try_start_next q) := by
  cases q with
  | nil => exact List.Pairwise.nil
  | cons y q' => exact (List.pairwise_cons.mp hq).2

theorem apply_ops_sorted :
    ∀ (ops : List QueueOp) (q : List QueuedJob), sorted_by_priority q →
    sorted_by_priority (apply_ops q ops) := by
  intro ops
  induction ops with
  | nil => intro q hq; exact hq
  | cons op ops ih =>
      intro q hq
      cases op with
      | enqueue j => exact ih (queue_job q j) (queue_job_sorted q j hq)
      | promote => exact ih (try_start_next q) (try_start_next_sorted q hq)

/-- C4 counterexample: two jobs of equal (Normal) priority enqueued in
submission order A then B end up as `[B, A]` — the newly enqueued job
is inserted *at* the binary-search hit, ahead of the earlier-submitted
equal-priority job — so promotion removes B, not the earliest-submitted
job A of the highest priority present. -/
theorem queue_tie_break_not_fifo_cex :
    jobA.priority = jobB.priority ∧
    jobA.queued_at < jobB.queued_at ∧
    apply_ops [] [.enqueue jobA, .enqueue jobB] = [jobB, jobA] ∧
    try_start_next (apply_ops [] [.enqueue jobA, .enqueue jobB]) = [jobA] :=
  ⟨rfl, Nat.zero_lt_one, rfl, rfl⟩

/-- C4 amended: after every sequence of enqueue and promotion
operations the in-memory queue is ordered by priority, highest first,
and the job removed on promotion (the queue head) has the highest
priority present; but equal-priority ties are *not* broken by
submission order — the insertion lands at the bisection position,
placing a new job ahead of an already-queued job of equal priority, as
the `[B, A]` run shows. -/
theorem queue_priority_sorted_amended :
    (∀ ops, sorted_by_priority (apply_ops [] ops)) ∧
    (∀ ops jb q', apply_ops [] ops = jb :: q' →
      ∀ x ∈ jb :: q', x.priority.toNat ≤ jb.priority.toNat) ∧
    (apply_ops [] [.enqueue jobA, .enqueue jobB]).map
      (fun z => z.job_id) = ["B", "A"] := by
  have hsorted : ∀ ops, sorted_by_priority (apply_ops [] ops) :=
    fun ops => apply_ops_sorted ops [] List.Pairwise.nil
  refine ⟨hsorted, ?_, rfl⟩
  intro ops jb q' heq x hx
  have hs := hsorted ops
  rw [heq] at hs
  rcases List.mem_cons.mp hx with rfl | hx'
  · exact Nat.le_refl _
  · exact (List.pairwise_cons.mp hs).1 x hx'

/-- Witness for the amended C4 theorem at the concrete A-then-B run. -/
theorem queue_priority_sorted_amended_witness :
    apply_ops [] [.enqueue jobA, .enqueue jobB] = jobB :: [jobA] ∧
    jobA.priority.toNat ≤ jobB.priority.toNat :=
  ⟨rfl,
    queue_priority_sorted_amended.2.1 [.enqueue jobA, .enqueue jobB]
      jobB [jobA] rfl jobA (by simp)⟩

/-! ## C3 — robots.txt evaluation -/

theorem wildcard_filter_empty (rules : List RobotRule) (ua : String)
    (h : rules.filter (fun r => matches_user_agent r.user_agent ua) = []) :
    rules.filter (fun r => r.user_agent = "*") = [] := by
  induction rules with
  | nil => rfl
  | cons r rs ih =>
      rw [List.filter_cons] at h ⊢
      by_cases hm : matches_user_agent r.user_agent ua = true
      · simp only [hm, if_true] at h
        exact List.noConfusion h
      · have hw : ¬(r.user_agent = "*") := by
          intro he
          exact hm (by simp [matches_user_agent, he])
        simp only [hm, if_false] at h
        simp only [decide_eq_true_eq]
        rw [if_neg (by simpa using hw)]
        exact ih h

/-- C3 counterexample: with a block whose agent pattern matches the
query agent as a substring and a separate wildcard block disallowing
`/b/`, the code treats the wildcard block as applicable too (the
pattern `*` matches every agent in the first selection pass, so the
fallback is never what fires) and disallows `/b/x`; under the claim's
fallback-only reading the wildcard block would be ignored and the URL
allowed. -/
theorem robots_wildcard_not_fallback_cex :
    check_url_allowed "googlebot" "/b/x"
      [⟨"googlebot", [], [], none⟩, ⟨"*", ["/b/"], [], none⟩] = false ∧
    claim_check_url_allowed "googlebot" "/b/x"
      [⟨"googlebot", [], [], none⟩, ⟨"*", ["/b/"], [], none⟩] = true :=
  ⟨rfl, rfl⟩

/-- C3 amended: applicable blocks are exactly those whose user-agent
pattern matches the query agent, where `*` matches every agent and any
other pattern matches by case-insensitive substring — wildcard blocks
are therefore always applicable alongside specific ones and the
fallback branch never adds anything.  With no applicable blocks
(scanning an empty list) the URL is allowed; within applicable blocks
an allow-pattern match wins over any disallow of the same block (allow
is checked first); and with `disallow /private/`, `allow
/private/public/`, the path `/private/public/x` is allowed. -/
theorem robots_allowed_amended :
    (∀ (ua path : String) (rules : List RobotRule),
      check_url_allowed ua path rules =
        scan_rules path
          (rules.filter (fun r => matches_user_agent r.user_agent ua))) ∧
    (∀ path, scan_rules path [] = true) ∧
    (∀ (path : String) (r : RobotRule) (rs : List RobotRule),
      r.allow.any (fun pat => matches_path path pat) = true →
      scan_rules path (r :: rs) = true) ∧
    check_url_allowed "TestBot" "/private/public/x"
      [⟨"*", ["/private/"], ["/private/public/"], none⟩] = true := by
  refine ⟨?_, fun _ => rfl, ?_, rfl⟩
  · intro ua path rules
    unfold check_url_allowed
    by_cases h :
        (rules.filter (fun r => matches_user_agent r.user_agent ua)).isEmpty
    · have he : rules.filter (fun r => matches_user_agent r.user_agent ua) = [] :=
        List.isEmpty_iff.mp h
      have hw := wildcard_filter_empty rules ua he
      rw [he]
      simp [h, hw, scan_rules]
    · simp [h]
  · intro path r rs ha
    simp only [scan_rules, ha, if_true]

/-- Witness for the amended C3 theorem: the allow-wins conjunct applied
to the spec's own `/private/public/` example block. -/
theorem robots_allowed_amended_witness :
    (RobotRule.mk "*" ["/private/"] ["/private/public/"] none).allow.any
      (fun pat => matches_path "/private/public/x" pat) = true ∧
    scan_rules "/private/public/x"
      [⟨"*", ["/private/"], ["/private/public/"], none⟩] = true :=
  ⟨rfl,
    robots_allowed_amended.2.2.1 "/private/public/x"
      (RobotRule.mk "*" ["/private/"] ["/private/public/"] none) [] rfl⟩

/-! ## C5 — structural defects are rejected by the validator -/

theorem seq_ok (x : Except String Unit) (f : Unit → Except String Unit)
    (h : (x >>= f) = .ok ()) : x = .ok () ∧ f () = .ok () := by
  cases x with
  | error e => simp [Bind.bind, Except.bind] at h
  | ok u =>
      cases u
      exact ⟨rfl, by simpa [Bind.bind, Except.bind] using h⟩

theorem validate_rules_ok_shape (p : Prims) (rules : Rules)
    (h : validate_rules p rules = .ok ()) :
    rules.item_selector ≠ "" ∧ rules.fields ≠ [] := by
  unfold validate_rules at h
  by_cases h1 : rules.item_selector = ""
  · rw [if_pos h1] at h
    exact Except.noConfusion h
  · rw [if_neg h1] at h
    by_cases h2 : rules.fields.isEmpty
    · rw [if_pos h2] at h
      exact Except.noConfusion h
    · exact ⟨h1, by simpa [List.isEmpty_iff] using h2⟩

theorem check_filter_refs_ok (names : List String) (fs : List Filter)
    (h : check_filter_refs names fs = .ok ()) :
    ∀ f ∈ fs, names.contains f.field = true := by
  induction fs with
  | nil => intro f hf; cases hf
  | cons g gs ih =>
      unfold check_filter_refs at h
      cases hc : names.contains g.field with
      | true =>
          rw [hc] at h
          simp only [Bool.not_true, Bool.false_eq_true, if_false] at h
          intro f hf
          rcases List.mem_cons.mp hf with rfl | hf'
          · exact hc
          · exact ih h f hf'
      | false =>
          rw [hc] at h
          simp only [Bool.not_false, if_true] at h
          exact Except.noConfusion h

theorem check_dedupe_keys_ok (names : List String) (ks : List String)
    (h : check_dedupe_keys names ks = .ok ()) :
    ∀ k ∈ ks, names.contains k = true := by
  induction ks with
  | nil => intro k hk; cases hk
  | cons a as ih =>
      unfold check_dedupe_keys at h
      cases hc : names.contains a with
      | true =>
          rw [hc] at h
          simp only [Bool.not_true, Bool.false_eq_true, if_false] at h
          intro k hk
          rcases List.mem_cons.mp hk with rfl | hk'
          · exact hc
          · exact ih h k hk'
      | false =>
          rw [hc] at h
          simp only [Bool.not_false, if_true] at h
          exact Except.noConfusion h

theorem validate_cross_references_ok (plan : ScrapePlan)
    (h : validate_cross_references plan = .ok ()) :
    (∀ f ∈ plan.rules.filters.getD [],
      (plan.rules.fields.map Field.name).contains f.field = true) ∧
    (∀ s, plan.output.sort_by = some s →
      (plan.rules.fields.map Field.name).contains s = true) ∧
    (∀ ks, plan.output.dedupe_keys = some ks →
      ∀ k ∈ ks, (plan.rules.fields.map Field.name).contains k = true) := by
  unfold validate_cross_references at h
  obtain ⟨h1, hrest⟩ := seq_ok _ _ h
  obtain ⟨h2, h3⟩ := seq_ok _ _ hrest
  refine ⟨?_, ?_, ?_⟩
  · intro f hf
    cases hflt : plan.rules.filters with
    | none => rw [hflt] at hf; cases hf
    | some fs =>
        rw [hflt] at h1 hf
        exact check_filter_refs_ok _ fs h1 f hf
  · intro s hs
    rw [hs] at h2
    have h2' : (if (!(plan.rules.fields.map Field.name).contains s) = true then
          (Except.error "Sort field does not exist in field definitions" :
            Except String Unit)
        else .ok ()) = .ok () := h2
    cases hc : (plan.rules.fields.map Field.name).contains s with
    | true => rfl
    | false =>
        rw [hc] at h2'
        simp only [Bool.not_false, if_true] at h2'
        exact Except.noConfusion h2'
  · intro ks hks
    rw [hks] at h3
    exact check_dedupe_keys_ok _ ks h3

/-- C5: a plan with an empty item selector, no declared fields, or a
filter/sort/dedupe reference naming no declared field is rejected by
`validate` — a pure function, so the error precedes any network
activity — and therefore never reaches the engine. -/
theorem validate_rejects_structural_defects (p : Prims) (plan : ScrapePlan)
    (h : plan.rules.item_selector = "" ∨ plan.rules.fields = [] ∨
      (∃ f ∈ plan.rules.filters.getD [],
        (plan.rules.fields.map Field.name).contains f.field = false) ∨
      (∃ s, plan.output.sort_by = some s ∧
        (plan.rules.fields.map Field.name).contains s = false) ∨
      (∃ ks, plan.output.dedupe_keys = some ks ∧ ∃ k ∈ ks,
        (plan.rules.fields.map Field.name).contains k = false)) :
    ∃ e, validate p plan = .error e := by
  cases hv : validate p plan with
  | error e => exact ⟨e, rfl⟩
  | ok u =>
      cases u
      exfalso
      unfold validate at hv
      obtain ⟨_, hv2⟩ := seq_ok _ _ hv
      obtain ⟨_, hv3⟩ := seq_ok _ _ hv2
      obtain ⟨hrules, hv4⟩ := seq_ok _ _ hv3
      obtain ⟨_, hv5⟩ := seq_ok _ _ hv4
      obtain ⟨_, hcross⟩ := seq_ok _ _ hv5
      obtain ⟨hshape1, hshape2⟩ := validate_rules_ok_shape p plan.rules hrules
      obtain ⟨hfil, hsort, hded⟩ := validate_cross_references_ok plan hcross
      rcases h with h | h | h | h | h
      · exact hshape1 h
      · exact hshape2 h
      · obtain ⟨f, hf, hnf⟩ := h
        rw [hfil f hf] at hnf
        exact Bool.noConfusion hnf
      · obtain ⟨s, hs, hns⟩ := h
        rw [hsort s hs] at hns
        exact Bool.noConfusion hns
      · obtain ⟨ks, hks, k, hk, hnk⟩ := h
        rw [hded ks hks k hk] at hnk
        exact Bool.noConfusion hnk

/-- Witness for C5: the default plan with its item selector emptied is
rejected by `validate`. -/
theorem validate_rejects_structural_defects_witness :
    ({ ScrapePlan.default with
        rules := { ScrapePlan.default.rules with item_selector := "" }
      } : ScrapePlan).rules.item_selector = "" ∧
    ∃ e, validate trivialPrims
      { ScrapePlan.default with
        rules := { ScrapePlan.default.rules with item_selector := "" } } =
      .error e :=
  ⟨rfl,
    validate_rejects_structural_defects trivialPrims
      { ScrapePlan.default with
        rules := { ScrapePlan.default.rules with item_selector := "" } }
      (Or.inl rfl)⟩

end WinScrape
